import Mathlib

/-!
Verification development for the `s3meta` Go library (`s3.go`).

Go strings are byte sequences; we model them as `List Nat` (each element a
byte).  Go's `http.Header` (`map[string][]string`) is modelled as an
association list from key to value list; Go map iteration order is
arbitrary, which the list order represents (operations whose Go result is
order-independent are proved so, or stated via lookups).
-/

/-- A Go string: its sequence of bytes. -/
abbrev GoStr := List Nat

/-- UTF-8 bytes of one character (Go source literals are UTF-8). -/
def utf8Bytes (c : Char) : List Nat :=
  let n := c.toNat
  if n < 128 then [n]
  else if n < 2048 then [192 + n / 64, 128 + n % 64]
  else if n < 65536 then [224 + n / 4096, 128 + (n / 64) % 64, 128 + n % 64]
  else [240 + n / 262144, 128 + (n / 4096) % 64, 128 + (n / 64) % 64, 128 + n % 64]

/-- Embed a Lean string literal as a Go string (its UTF-8 bytes). -/
def gs (s : String) : GoStr := (s.data.map utf8Bytes).flatten

/-- ASCII lower-casing of one byte.  Models what `strings.ToLower` does on
the ASCII range (the only range this library's header machinery produces). -/
def lowerByte (c : Nat) : Nat := if 65 ≤ c ∧ c ≤ 90 then c + 32 else c

/-- ASCII upper-casing of one byte. -/
def upperByte (c : Nat) : Nat := if 97 ≤ c ∧ c ≤ 122 then c - 32 else c

/-- `strings.ToLower`, byte-wise on ASCII data. -/
def strToLower (s : GoStr) : GoStr := s.map lowerByte

/-- Go string comparison `s < t` (lexicographic byte order). -/
def strLtB : GoStr → GoStr → Bool
  | [], [] => false
  | [], _ :: _ => true
  | _ :: _, [] => false
  | a :: as, b :: bs => if a < b then true else if b < a then false else strLtB as bs

/-- Insert into a byte-string list sorted ascending (helper for `sortStrs`). -/
def insertStr (s : GoStr) : List GoStr → List GoStr
  | [] => [s]
  | t :: ts => if strLtB t s then t :: insertStr s ts else s :: t :: ts

/-- `sort.Strings`: sort ascending in Go's byte order. -/
def sortStrs (l : List GoStr) : List GoStr := l.foldr insertStr []

/-- `strings.TrimPrefix p s` (note argument order: the pattern first). -/
def dropPre (p s : GoStr) : GoStr := if p.isPrefixOf s then s.drop p.length else s

/-- `net/textproto`'s `validHeaderFieldByte`: HTTP token bytes. -/
def validTokenByte (c : Nat) : Bool :=
  (48 ≤ c ∧ c ≤ 57) ∨ (65 ≤ c ∧ c ≤ 90) ∨ (97 ≤ c ∧ c ≤ 122) ∨
    c = 33 ∨ c = 35 ∨ c = 36 ∨ c = 37 ∨ c = 38 ∨ c = 39 ∨ c = 42 ∨ c = 43 ∨
    c = 45 ∨ c = 46 ∨ c = 94 ∨ c = 95 ∨ c = 96 ∨ c = 124 ∨ c = 126

/-- The re-casing loop of `textproto.canonicalMIMEHeaderKey`: upper-case a
letter at the start and after each hyphen (byte 45), lower-case elsewhere. -/
def recase (up : Bool) : GoStr → GoStr
  | [] => []
  | c :: cs =>
    let c' := if up then upperByte c else lowerByte c
    c' :: recase (c' = 45) cs

/-- `textproto.CanonicalMIMEHeaderKey`: a key containing a byte that is not
a valid token byte is returned unchanged; otherwise it is re-cased. -/
def canonicalMIME (s : GoStr) : GoStr :=
  if s.all validTokenByte then recase true s else s

/-- `http.Header` / `textproto.MIMEHeader`: a map from key to value list,
as an association list. -/
abbrev Headers := List (GoStr × List GoStr)

/-- Raw map lookup (first entry with exactly this key). -/
def headerLookup : Headers → GoStr → Option (List GoStr)
  | [], _ => none
  | e :: es, k => if e.1 = k then some e.2 else headerLookup es k

/-- Raw map update `h[k] = append(h[k], v)` (no key canonicalization). -/
def headerAddRaw : Headers → GoStr → GoStr → Headers
  | [], k, v => [(k, [v])]
  | e :: es, k, v => if e.1 = k then (e.1, e.2 ++ [v]) :: es else e :: headerAddRaw es k v

/-- `Header.Add`: canonicalize the key, then append the value. -/
def headerAdd (h : Headers) (k v : GoStr) : Headers := headerAddRaw h (canonicalMIME k) v

/-- `Header.Get`: canonicalize the key, return the first stored value, or
the empty string when the key is absent or its value list is empty. -/
def headerGet (h : Headers) (k : GoStr) : GoStr :=
  match headerLookup h (canonicalMIME k) with
  | some (v :: _) => v
  | _ => []

/-- `Header.Values`: the whole value list under the canonicalized key. -/
def headerValuesOf (h : Headers) (k : GoStr) : List GoStr :=
  (headerLookup h (canonicalMIME k)).getD []

/-- The vendor-header test: the lower-cased name starts with `x-amz-`. -/
def amzKey (k : GoStr) : Bool := (gs "x-amz-").isPrefixOf (strToLower k)

/-- The sub-map of the headers whose names pass the vendor-header test. -/
def amzEntries (h : Headers) : Headers := h.filter (fun e => amzKey e.1)

/-- `canonicalizedAmzHeaders` (s3.go): collect the stored header names whose
lower-cased form starts with `x-amz-`, sort them (by the stored name, in
Go's byte order), and emit `lowercase-name:Get(name)\n` for each. -/
def canonicalizedAmzHeaders (h : Headers) : GoStr :=
  let keys := (h.map Prod.fst).filter amzKey
  ((sortStrs keys).map (fun k => strToLower k ++ gs ":" ++ headerGet h k ++ gs "\n")).flatten

/-! ## HMAC-SHA1 and base64 (crypto/hmac, crypto/sha1, encoding/base64)

32-bit machine words are `Nat` reduced mod `2^32` where overflow matters. -/

/-- Truncate to a 32-bit word. -/
def w32 (n : Nat) : Nat := n % 4294967296

/-- Rotate a 32-bit word left by `k` bits. -/
def rotl (k n : Nat) : Nat := w32 (n * 2 ^ k + n / 2 ^ (32 - k))

/-- Big-endian bytes of a 32-bit word. -/
def be4 (n : Nat) : List Nat := [n / 16777216 % 256, n / 65536 % 256, n / 256 % 256, n % 256]

/-- Big-endian bytes of a 64-bit length field. -/
def be8 (n : Nat) : List Nat :=
  [n / 2 ^ 56 % 256, n / 2 ^ 48 % 256, n / 2 ^ 40 % 256, n / 2 ^ 32 % 256,
   n / 2 ^ 24 % 256, n / 2 ^ 16 % 256, n / 2 ^ 8 % 256, n % 256]

/-- SHA-1 padding: a 1 bit, zeros, and the 64-bit big-endian bit length. -/
def sha1Pad (msg : List Nat) : List Nat :=
  msg ++ [128] ++ List.replicate ((119 - msg.length % 64) % 64) 0 ++ be8 (8 * msg.length)

/-- Split into 64-byte blocks, with enough fuel (helper for `chunks64`). -/
def chunksAux : Nat → List Nat → List (List Nat)
  | 0, _ => []
  | n + 1, l => if l = [] then [] else l.take 64 :: chunksAux n (l.drop 64)

/-- Split a (padded) message into 64-byte blocks. -/
def chunks64 (l : List Nat) : List (List Nat) := chunksAux l.length l

/-- Group 4 bytes big-endian into one 32-bit word, 16 words per block. -/
def toWords : List Nat → List Nat
  | a :: b :: c :: d :: rest => (((a * 256 + b) * 256 + c) * 256 + d) :: toWords rest
  | _ => []

/-- Extend the 16 schedule words to 80 (`n` more words to append). -/
def extendW : Nat → List Nat → List Nat
  | 0, ws => ws
  | n + 1, ws =>
    let m := ws.length
    let w := rotl 1 (ws.getD (m - 3) 0 ^^^ ws.getD (m - 8) 0 ^^^ ws.getD (m - 14) 0 ^^^ ws.getD (m - 16) 0)
    extendW n (ws ++ [w])

/-- One SHA-1 round's mixing function and constant, by round index. -/
def sha1FK (i b c d : Nat) : Nat × Nat :=
  if i < 20 then ((b &&& c) ||| ((4294967295 ^^^ b) &&& d), 1518500249)
  else if i < 40 then (b ^^^ c ^^^ d, 1859775393)
  else if i < 60 then ((b &&& c) ||| (b &&& d) ||| (c &&& d), 2400959708)
  else (b ^^^ c ^^^ d, 3395469782)

/-- The 80 rounds of one SHA-1 block. -/
def sha1Rounds (ws : List Nat) (st : Nat × Nat × Nat × Nat × Nat) : Nat × Nat × Nat × Nat × Nat :=
  (List.range 80).foldl
    (fun st i =>
      match st with
      | (a, b, c, d, e) =>
        let (f, k) := sha1FK i b c d
        (w32 (rotl 5 a + f + e + k + ws.getD i 0), a, rotl 30 b, c, d))
    st

/-- Fold one block into the running SHA-1 state. -/
def sha1Block (st : Nat × Nat × Nat × Nat × Nat) (chunk : List Nat) : Nat × Nat × Nat × Nat × Nat :=
  match st, sha1Rounds (extendW 64 (toWords chunk)) st with
  | (h0, h1, h2, h3, h4), (a, b, c, d, e) =>
    (w32 (h0 + a), w32 (h1 + b), w32 (h2 + c), w32 (h3 + d), w32 (h4 + e))

/-- SHA-1 of a byte sequence (20-byte digest). -/
def sha1 (msg : List Nat) : List Nat :=
  match (chunks64 (sha1Pad msg)).foldl sha1Block
      (1732584193, 4023233417, 2562383102, 271733878, 3285377520) with
  | (h0, h1, h2, h3, h4) => be4 h0 ++ be4 h1 ++ be4 h2 ++ be4 h3 ++ be4 h4

/-- HMAC-SHA1 (block size 64). -/
def hmacSha1 (key msg : List Nat) : List Nat :=
  let k0 := if 64 < key.length then sha1 key else key
  let kp := k0 ++ List.replicate (64 - k0.length) 0
  sha1 (kp.map (fun b => b ^^^ 92) ++ sha1 (kp.map (fun b => b ^^^ 54) ++ msg))

/-- Byte of the standard base64 alphabet at index `n`. -/
def b64byte (n : Nat) : Nat :=
  if n < 26 then 65 + n else if n < 52 then 71 + n
  else if n < 62 then n - 4 else if n = 62 then 43 else 47

/-- `base64.StdEncoding.EncodeToString`, as the bytes of the encoded text. -/
def base64Std : List Nat → List Nat
  | a :: b :: c :: rest =>
    let n := (a * 256 + b) * 256 + c
    b64byte (n / 262144) :: b64byte (n / 4096 % 64) :: b64byte (n / 64 % 64) :: b64byte (n % 64)
      :: base64Std rest
  | [a, b] =>
    let n := (a * 256 + b) * 256
    [b64byte (n / 262144), b64byte (n / 4096 % 64), b64byte (n / 64 % 64), 61]
  | [a] =>
    let n := a * 65536
    [b64byte (n / 262144), b64byte (n / 4096 % 64), 61, 61]
  | [] => []

/-! ## The signer (`authRequest`, s3.go) -/

/-- The parts of `net/url.URL` this library touches: the (escaped) path and
the raw query.  The requests it builds have no opaque part and no fragment. -/
structure GoUrl where
  path : GoStr
  rawQuery : GoStr
deriving DecidableEq

/-- The parts of `http.Request` the signer and the operations touch. -/
structure GoReq where
  method : GoStr
  url : GoUrl
  header : Headers
  body : Option GoStr
deriving DecidableEq

/-- The `Bucket` struct: name, region base, key id and secret. -/
structure Bucket where
  name : GoStr
  base : GoStr
  key : GoStr
  secret : GoStr
deriving DecidableEq

/-- `URL.RequestURI` for such a URL: the escaped path (`/` when empty),
then `?` and the raw query when one is set. -/
def requestURI (u : GoUrl) : GoStr :=
  let r := if u.path = [] then gs "/" else u.path
  if u.rawQuery = [] then r else r ++ gs "?" ++ u.rawQuery

/-- The canonicalized resource: `strings.Join(["/", b.Name, uri], "")` where
`uri` is the request URI of the URL with `RawQuery` cleared. -/
def canonicalizedResource (b : Bucket) (u : GoUrl) : GoStr :=
  [gs "/", b.name, requestURI { u with rawQuery := [] }].flatten

/-- The string to sign, joined with separator `""` exactly as in the source. -/
def stringToSign (b : Bucket) (r : GoReq) : GoStr :=
  [r.method, gs "\n\n",
   headerGet r.header (gs "Content-Type"), gs "\n",
   headerGet r.header (gs "Date"), gs "\n",
   canonicalizedAmzHeaders r.header,
   canonicalizedResource b r.url].flatten

/-- The first step of `authRequest`: stamp a `Date` header (the value the
clock would give is the parameter `now`) when the request has none. -/
def authDateStep (now : GoStr) (r : GoReq) : GoReq :=
  if headerGet r.header (gs "Date") = [] then
    { r with header := headerAdd r.header (gs "Date") now }
  else r

/-- The base64 HMAC-SHA1 signature of the string to sign. -/
def signatureOf (b : Bucket) (r : GoReq) : GoStr :=
  base64Std (hmacSha1 b.secret (stringToSign b r))

/-- `authRequest`: stamp `Date` when absent, then append the `Host` and
`Authorization` headers.  `now` stands for the clock reading the Go code
takes from `time.Now()`. -/
def authRequest (now : GoStr) (b : Bucket) (r : GoReq) : GoReq :=
  let r1 := authDateStep now r
  let sig := signatureOf b r1
  let h1 := headerAdd r1.header (gs "Host") (gs "http://" ++ b.name ++ b.base)
  let h2 := headerAdd h1 (gs "Authorization") (gs "AWS " ++ b.key ++ gs ":" ++ sig)
  { r1 with header := h2 }

/-! ## The retrying executor (`authDoRequest`, s3.go)

`http.DefaultClient.Do` and the clock are the loop's environment: `disp n`
is the outcome `Do` returns on the `n`-th call (1-indexed), and `timedOut n`
is whether `time.Now().After(timeout)` holds when checked after the `n`-th
failed call. -/

/-- The parts of `http.Response` the operations read (`body` stands for what
`ioutil.ReadAll` yields). -/
structure GoResp where
  statusCode : Int
  status : GoStr
  header : Headers
  body : GoStr
deriving DecidableEq

/-- One outcome of `http.DefaultClient.Do`. -/
structure DispStep where
  resp : Option GoResp
  err : Option GoStr
deriving DecidableEq

/-- The loop's environment: the dispatcher and the deadline test. -/
structure RetryEnv where
  disp : Nat → DispStep
  timedOut : Nat → Bool

/-- What one run of the loop produced: the returned `(resp, err)` pair and,
for the bookkeeping the claims talk about, how many `Do` calls and how many
`time.Sleep` calls were made. -/
structure RetryResult where
  resp : Option GoResp
  err : Option GoStr
  calls : Nat
  sleeps : Nat
deriving DecidableEq

/-- The `for attempt := 1; attempt <= MaxAttempts; attempt++` loop body:
dispatch; break on `err == nil`; break when past the deadline; else sleep
and go round.  `rem` is how many iterations the counter still allows, and
`acc` the named result variables `(resp, err)` (zero values at entry). -/
def retryLoop (env : RetryEnv) (attempt : Nat) : Nat → Option GoResp × Option GoStr → RetryResult
  | 0, acc => { resp := acc.1, err := acc.2, calls := 0, sleeps := 0 }
  | rem + 1, _ =>
    if (env.disp attempt).err = none then
      { resp := (env.disp attempt).resp, err := (env.disp attempt).err, calls := 1, sleeps := 0 }
    else if env.timedOut attempt then
      { resp := (env.disp attempt).resp, err := (env.disp attempt).err, calls := 1, sleeps := 0 }
    else
      let r := retryLoop env (attempt + 1) rem ((env.disp attempt).resp, (env.disp attempt).err)
      { resp := r.resp, err := r.err, calls := r.calls + 1, sleeps := r.sleeps + 1 }

/-- `authDoRequest`'s retry loop, run with `MaxAttempts` (a Go `int`, so it
may be less than 1, in which case the body never runs and the zero-valued
`(nil, nil)` is returned). -/
def authDoModel (env : RetryEnv) (maxAttempts : Int) : RetryResult :=
  retryLoop env 1 maxAttempts.toNat (none, none)

/-! ## The shell operations' response handling (s3.go) -/

/-- `HeadS3Object`: dispatch error out; 404 is `(false, nil)`; other
non-200 is `(false, errors.New(resp.Status))`; 200 is `(true, nil)`. -/
def headS3ObjectModel (env : RetryEnv) (maxAttempts : Int) : Bool × Option GoStr :=
  let r := authDoModel env maxAttempts
  match r.err with
  | some e => (false, some e)
  | none =>
    match r.resp with
    | none => (false, none)
    | some resp =>
      if resp.statusCode = 404 then (false, none)
      else if resp.statusCode ≠ 200 then (false, some resp.status)
      else (true, none)

/-- `GetS3Object`: dispatch error out; non-200 is
`("", errors.New(string(body)))`; 200 is `(string(body), nil)`.
(The `r.resp = none` fallback is unreachable for `MaxAttempts ≥ 1`: the Go
code would dereference a nil response there.) -/
def getS3ObjectModel (env : RetryEnv) (maxAttempts : Int) : GoStr × Option GoStr :=
  let r := authDoModel env maxAttempts
  match r.err with
  | some e => ([], some e)
  | none =>
    match r.resp with
    | none => ([], none)
    | some resp =>
      if resp.statusCode ≠ 200 then ([], some resp.body)
      else (resp.body, none)

/-! ## Metadata extraction (`extractMetaDataFrom`, `PutS3ObjectMetaDataResponse`) -/

/-- Go map write `data[k] = v`: replace the value when the key exists. -/
def metaInsert : List (GoStr × GoStr) → GoStr → GoStr → List (GoStr × GoStr)
  | [], k, v => [(k, v)]
  | e :: es, k, v => if e.1 = k then (k, v) :: es else e :: metaInsert es k v

/-- Go map read: the value under `k`, when present. -/
def metaLookup : List (GoStr × GoStr) → GoStr → Option GoStr
  | [], _ => none
  | e :: es, k => if e.1 = k then some e.2 else metaLookup es k

/-- One iteration of `extractMetaDataFrom`'s loop over the header map `h`. -/
def extractStep (h : Headers) (data : List (GoStr × GoStr)) (e : GoStr × List GoStr) :
    List (GoStr × GoStr) :=
  let kl := strToLower e.1
  if (gs "x-amz-meta-").isPrefixOf kl then
    metaInsert data (dropPre (gs "x-amz-meta-") kl) (headerGet h e.1)
  else data

/-- `extractMetaDataFrom`: collect `lower(name) minus the marker ↦ Get(name)`
over every header whose lower-cased name starts with `x-amz-meta-`. -/
def extractMetaDataFrom (h : Headers) : List (GoStr × GoStr) :=
  h.foldl (extractStep h) []

/-- The header map `PutS3ObjectMetaDataResponse` builds: `Content-Type:
text/plain`, then one `Add("x-amz-meta-"+k, v)` per metadata entry. -/
def putMetaHeaders (entries : List (GoStr × GoStr)) : Headers :=
  entries.foldl (fun h e => headerAdd h (gs "x-amz-meta-" ++ e.1) e.2)
    (headerAdd [] (gs "Content-Type") (gs "text/plain"))

/-- A header map built through `Header.Add` from a list of name/value pairs. -/
def buildHeaders (ps : List (GoStr × GoStr)) : Headers :=
  ps.foldl (fun h e => headerAdd h e.1 e.2) []

/-- The stored key of one metadata header: what `Header.Add` makes of
`"x-amz-meta-" + key`. -/
def metaHdrKey (k : GoStr) : GoStr := canonicalMIME (gs "x-amz-meta-" ++ k)

/-- The header entries the metadata `Add` loop appends, in order. -/
def metaHdrEntries (entries : List (GoStr × GoStr)) : Headers :=
  entries.map (fun e => (metaHdrKey e.1, [e.2]))

/-! ## Concrete fixtures used to instantiate the theorems -/

/-- A 404 response with the fake server's body text. -/
def resp404 : GoResp :=
  { statusCode := 404, status := gs "404 Not Found", header := [], body := gs "Not Found" }

/-- A 200 response carrying the stored value `sacks`. -/
def resp200sacks : GoResp :=
  { statusCode := 200, status := gs "200 OK", header := [], body := gs "sacks" }

/-- A 500 response. -/
def resp500 : GoResp :=
  { statusCode := 500, status := gs "500 Internal Server Error", header := [], body := gs "oops" }

/-- Every dispatch completes (no transport error) with a 404. -/
def env404 : RetryEnv :=
  { disp := fun _ => { resp := some resp404, err := none }, timedOut := fun _ => false }

/-- Every dispatch completes with a 500. -/
def env500 : RetryEnv :=
  { disp := fun _ => { resp := some resp500, err := none }, timedOut := fun _ => false }

/-- The first dispatch completes with a 404; the value is there on every
later dispatch (it became available one delay interval afterwards). -/
def env404then200 : RetryEnv :=
  { disp := fun n => if n = 1 then { resp := some resp404, err := none }
      else { resp := some resp200sacks, err := none },
    timedOut := fun _ => false }

/-- The first dispatch fails at the transport level; every later dispatch
completes with the stored value. -/
def envFailThen200 : RetryEnv :=
  { disp := fun n => if n = 1 then { resp := none, err := some (gs "connection refused") }
      else { resp := some resp200sacks, err := none },
    timedOut := fun _ => false }

/-- Every dispatch fails at the transport level. -/
def envAlwaysFail : RetryEnv :=
  { disp := fun _ => { resp := none, err := some (gs "dial tcp: connection refused") },
    timedOut := fun _ => false }

/-- A bucket fixture. -/
def bkt : Bucket :=
  { name := gs "bucketA", base := gs ".s3.amazonaws.com/", key := gs "KEYID", secret := gs "SECRET" }

/-- A request fixture that already carries a `Date` header. -/
def reqWithDate : GoReq :=
  { method := gs "GET", url := { path := gs "/obj", rawQuery := [] },
    header := [(gs "Date", [gs "Mon, 02 Jan 2006 15:04:05 +0000"]),
               (gs "Content-Type", [gs "text/plain"]),
               (gs "X-Amz-Meta-A", [gs "1"])],
    body := none }

/-- Like `reqWithDate` but with a query string and an extra header that is
not a vendor header: the signature must not see either. -/
def reqWithDate2 : GoReq :=
  { method := gs "GET", url := { path := gs "/obj", rawQuery := gs "x=1" },
    header := [(gs "Date", [gs "Mon, 02 Jan 2006 15:04:05 +0000"]),
               (gs "Content-Type", [gs "text/plain"]),
               (gs "X-Amz-Meta-A", [gs "1"]),
               (gs "User-Agent", [gs "test"])],
    body := none }

/-- A request fixture with no `Date` header. -/
def reqNoDate : GoReq :=
  { method := gs "PUT", url := { path := gs "/obj", rawQuery := [] },
    header := [(gs "Content-Type", [gs "text/plain"])],
    body := some (gs "payload") }

/-! ## Sanity checks of the crypto layer against published test vectors -/

set_option maxRecDepth 100000 in
theorem sha1_empty_vector :
    sha1 [] = [218, 57, 163, 238, 94, 107, 75, 13, 50, 85, 191, 239,
      149, 96, 24, 144, 175, 216, 7, 9] := by decide

set_option maxRecDepth 100000 in
theorem hmacSha1_fox_vector :
    hmacSha1 (gs "key") (gs "The quick brown fox jumps over the lazy dog")
      = [222, 124, 155, 133, 184, 183, 138, 166, 188, 138, 122, 54,
        247, 10, 144, 112, 28, 157, 180, 217] := by decide

theorem base64Std_vector : base64Std (gs "Ma") = gs "TWE=" := by decide

/-! ## Lemmas about the retry loop -/

theorem retryLoop_calls_le (env : RetryEnv) :
    ∀ (rem attempt : Nat) (acc : Option GoResp × Option GoStr),
      (retryLoop env attempt rem acc).calls ≤ rem := by
  intro rem
  induction rem with
  | zero => intro attempt acc; simp [retryLoop]
  | succ n ih =>
    intro attempt acc
    simp only [retryLoop]
    split
    · simp
    · split
      · simp
      · simpa using Nat.succ_le_succ (ih (attempt + 1) _)

theorem retryLoop_first_ok (env : RetryEnv) :
    ∀ (i rem attempt : Nat) (acc : Option GoResp × Option GoStr), i < rem →
      (∀ j, j < i → (env.disp (attempt + j)).err ≠ none ∧ env.timedOut (attempt + j) = false) →
      (env.disp (attempt + i)).err = none →
      retryLoop env attempt rem acc =
        { resp := (env.disp (attempt + i)).resp, err := none, calls := i + 1, sleeps := i } := by
  intro i
  induction i with
  | zero =>
    intro rem attempt acc hlt _ hok
    match rem, hlt with
    | n + 1, _ =>
      rw [Nat.add_zero] at hok
      simp [retryLoop, hok]
  | succ i ih =>
    intro rem attempt acc hlt hj hok
    match rem, hlt with
    | n + 1, hlt =>
      have h0 := hj 0 (Nat.succ_pos i)
      rw [Nat.add_zero] at h0
      have e1 : attempt + (i + 1) = attempt + 1 + i := by omega
      rw [e1] at hok
      have hrec := ih n (attempt + 1) ((env.disp attempt).resp, (env.disp attempt).err)
        (by omega)
        (fun j hji => by
          have h := hj (j + 1) (by omega)
          have e2 : attempt + (j + 1) = attempt + 1 + j := by omega
          rwa [e2] at h)
        hok
      simp only [retryLoop]
      rw [if_neg h0.1, if_neg (by simp [h0.2])]
      simp only [hrec]
      rw [e1]

theorem retryLoop_last (env : RetryEnv) :
    ∀ (rem attempt : Nat) (acc : Option GoResp × Option GoStr), 1 ≤ rem →
      1 ≤ (retryLoop env attempt rem acc).calls ∧
      (retryLoop env attempt rem acc).resp
        = (env.disp (attempt + (retryLoop env attempt rem acc).calls - 1)).resp ∧
      (retryLoop env attempt rem acc).err
        = (env.disp (attempt + (retryLoop env attempt rem acc).calls - 1)).err := by
  intro rem
  induction rem with
  | zero => intro _ _ h; exact absurd h (by omega)
  | succ n ih =>
    intro attempt acc _
    simp only [retryLoop]
    split
    · simp
    · split
      · simp
      · match n with
        | 0 => simp [retryLoop]
        | m + 1 =>
          have h := ih (attempt + 1) ((env.disp attempt).resp, (env.disp attempt).err) (by omega)
          refine ⟨by simp, ?_, ?_⟩ <;>
            · simp only [h.2.1, h.2.2]
              congr 2
              omega

theorem authDoModel_first_ok (env : RetryEnv) (maxAttempts : Int) (k : Nat)
    (hk1 : 1 ≤ k) (hkmax : k ≤ maxAttempts.toNat)
    (hbefore : ∀ j, 1 ≤ j → j < k → (env.disp j).err ≠ none ∧ env.timedOut j = false)
    (hok : (env.disp k).err = none) :
    authDoModel env maxAttempts =
      { resp := (env.disp k).resp, err := none, calls := k, sleeps := k - 1 } := by
  have h := retryLoop_first_ok env (k - 1) maxAttempts.toNat 1 (none, none)
    (by omega)
    (fun j hj => hbefore (1 + j) (by omega) (by omega))
    (by rwa [show 1 + (k - 1) = k by omega])
  rw [show 1 + (k - 1) = k by omega] at h
  rw [authDoModel, h]
  simp [show k - 1 + 1 = k by omega]

/-- Claim C2: the executor makes at most `MaxAttempts` dispatch calls; the
first dispatch that returns no transport error (all earlier ones failing
without exhausting the deadline) makes it return that dispatch's response
with a nil error at once, with no further dispatch and no further sleep;
and when every dispatch fails, the returned error (and response) are those
of the last dispatch performed. -/
theorem authDoRequest_retry_contract (env : RetryEnv) (maxAttempts : Int) :
    (authDoModel env maxAttempts).calls ≤ maxAttempts.toNat
    ∧ (∀ k, 1 ≤ k → k ≤ maxAttempts.toNat →
        (∀ j, 1 ≤ j → j < k → (env.disp j).err ≠ none ∧ env.timedOut j = false) →
        (env.disp k).err = none →
        authDoModel env maxAttempts =
          { resp := (env.disp k).resp, err := none, calls := k, sleeps := k - 1 })
    ∧ ((∀ j, 1 ≤ j → j ≤ maxAttempts.toNat → (env.disp j).err ≠ none) →
        1 ≤ maxAttempts.toNat →
        1 ≤ (authDoModel env maxAttempts).calls
        ∧ (authDoModel env maxAttempts).err
            = (env.disp (authDoModel env maxAttempts).calls).err
        ∧ (authDoModel env maxAttempts).resp
            = (env.disp (authDoModel env maxAttempts).calls).resp
        ∧ (authDoModel env maxAttempts).err ≠ none) := by
  refine ⟨retryLoop_calls_le env _ 1 _, ?_, ?_⟩
  · exact fun k hk1 hkmax hbefore hok => authDoModel_first_ok env maxAttempts k hk1 hkmax hbefore hok
  · intro hall hmax
    have h := retryLoop_last env maxAttempts.toNat 1 (none, none) hmax
    have hle := retryLoop_calls_le env maxAttempts.toNat 1 (none, none)
    rw [authDoModel] at *
    have hidx : 1 + (retryLoop env 1 maxAttempts.toNat (none, none)).calls - 1
        = (retryLoop env 1 maxAttempts.toNat (none, none)).calls := by omega
    rw [hidx] at h
    exact ⟨h.1, h.2.2, h.2.1, by rw [h.2.2]; exact hall _ h.1 hle⟩

/-- Claim C6 (amended reading is the claim itself): once a dispatch
completes the HTTP exchange (no transport error), whatever the status code
in the response, the loop stops there: the number of `Do` calls is exactly
that attempt's index, so no later dispatch of the request ever occurs. -/
theorem authDoRequest_stops_on_exchange (env : RetryEnv) (maxAttempts : Int) (k : Nat)
    (hk1 : 1 ≤ k) (hkmax : k ≤ maxAttempts.toNat)
    (hbefore : ∀ j, 1 ≤ j → j < k → (env.disp j).err ≠ none ∧ env.timedOut j = false)
    (hok : (env.disp k).err = none) :
    (authDoModel env maxAttempts).calls = k ∧ (authDoModel env maxAttempts).err = none := by
  rw [authDoModel_first_ok env maxAttempts k hk1 hkmax hbefore hok]
  exact ⟨rfl, rfl⟩

/-- Witness for C6: a dispatcher that completes every exchange with a 500
status stops the loop on the very first call. -/
theorem authDoRequest_stops_on_exchange_witness :
    (authDoModel env500 5).calls = 1 ∧ (authDoModel env500 5).err = none :=
  authDoRequest_stops_on_exchange env500 5 1 (by decide) (by decide)
    (fun j h1 h2 => absurd h2 (by omega)) rfl

/-- Claim C10: a `MaxAttempts` below 1 makes the loop body never run, so no
dispatch happens and the zero values `(nil, nil)` are returned — neither a
response nor an error. -/
theorem authDoRequest_zero_attempts (env : RetryEnv) (maxAttempts : Int)
    (h : maxAttempts < 1) :
    authDoModel env maxAttempts = { resp := none, err := none, calls := 0, sleeps := 0 } := by
  rw [authDoModel, Int.toNat_of_nonpos (by omega)]
  rfl

/-- Witness for C10 at `MaxAttempts = 0`. -/
theorem authDoRequest_zero_attempts_witness :
    authDoModel env404 0 = { resp := none, err := none, calls := 0, sleeps := 0 } :=
  authDoRequest_zero_attempts env404 0 (by decide)

/-- Counterexample for claim C5: on a GET whose dispatch completes with
status 404 (body `Not Found`), `GetS3Object` does not return a nil error —
it returns the body text as an error. -/
theorem getS3Object_404_is_error_cex :
    (getS3ObjectModel env404 5).2 = some (gs "Not Found")
    ∧ (getS3ObjectModel env404 5).2 ≠ none := by
  constructor <;> decide

/-- Claim C5 as amended: when the dispatched exchange completes (first
attempt, no transport error), a 404 makes `HeadS3Object` return
`(false, nil)`; `GetS3Object` returns `("", error carrying the body text)`
for every non-200 status, 404 included; a status that is neither 200 nor
404 makes `HeadS3Object` return an error carrying the status line. -/
theorem headGet_status_handling (env : RetryEnv) (maxAttempts : Int) (resp : GoResp)
    (hmax : 1 ≤ maxAttempts.toNat)
    (hdisp : env.disp 1 = { resp := some resp, err := none }) :
    (resp.statusCode = 404 → headS3ObjectModel env maxAttempts = (false, none))
    ∧ (resp.statusCode ≠ 200 → getS3ObjectModel env maxAttempts = ([], some resp.body))
    ∧ (resp.statusCode ≠ 404 → resp.statusCode ≠ 200 →
        headS3ObjectModel env maxAttempts = (false, some resp.status))
    ∧ (resp.statusCode = 200 → headS3ObjectModel env maxAttempts = (true, none)
        ∧ getS3ObjectModel env maxAttempts = (resp.body, none)) := by
  have h := authDoModel_first_ok env maxAttempts 1 (by omega) hmax
    (fun j h1 h2 => absurd h2 (by omega)) (by rw [hdisp])
  rw [hdisp] at h
  refine ⟨?_, ?_, ?_, ?_⟩
  · intro h404
    rw [headS3ObjectModel, h]
    simp [h404]
  · intro hne
    rw [getS3ObjectModel, h]
    simp [hne]
  · intro hne404 hne200
    rw [headS3ObjectModel, h]
    simp [hne404, hne200]
  · intro h200
    constructor
    · rw [headS3ObjectModel, h]
      simp [h200]
    · rw [getS3ObjectModel, h]
      simp [h200]

/-- Witness for the amended C5 at a concrete 404 exchange. -/
theorem headGet_status_handling_witness :
    headS3ObjectModel env404 5 = (false, none) :=
  (headGet_status_handling env404 5 resp404 (by decide) rfl).1 (by decide)

/-- Counterexample for claim C7: with the default five attempts, delay and
budget untouched, a GET whose first dispatch completes with a 404 and whose
value is there for any later dispatch still returns the not-found error —
the 404 exchange ends the loop after one call, so no retry happens and the
value `sacks` is never fetched. -/
theorem getS3Object_404_no_retry_cex :
    getS3ObjectModel env404then200 5 = ([], some (gs "Not Found"))
    ∧ getS3ObjectModel env404then200 5 ≠ (gs "sacks", none)
    ∧ (authDoModel env404then200 5).calls = 1 := by
  refine ⟨by decide, by decide, by decide⟩

/-- Claim C7 as amended: with at least two attempts allowed, a GET whose
first dispatch fails at the transport level (the only failure kind this
layer retries) without exhausting the time budget, and whose second
dispatch completes with status 200 and the stored value, returns that value
with a nil error. -/
theorem getS3Object_retry_succeeds (env : RetryEnv) (maxAttempts : Int)
    (e : GoStr) (resp : GoResp)
    (hmax : 2 ≤ maxAttempts.toNat)
    (h1 : env.disp 1 = { resp := none, err := some e })
    (ht : env.timedOut 1 = false)
    (h2 : env.disp 2 = { resp := some resp, err := none })
    (h200 : resp.statusCode = 200) :
    getS3ObjectModel env maxAttempts = (resp.body, none) := by
  have h := authDoModel_first_ok env maxAttempts 2 (by omega) hmax
    (fun j hj1 hj2 => by
      have hj : j = 1 := by omega
      subst hj
      exact ⟨by rw [h1]; simp, ht⟩)
    (by rw [h2])
  rw [h2] at h
  rw [getS3ObjectModel, h]
  simp [h200]

/-- Witness for the amended C7: transport failure then success fetches the
stored value `sacks`. -/
theorem getS3Object_retry_succeeds_witness :
    getS3ObjectModel envFailThen200 5 = (gs "sacks", none) :=
  getS3Object_retry_succeeds envFailThen200 5 (gs "connection refused") resp200sacks
    (by decide) rfl rfl rfl rfl

/-! ## Lemmas about bytes, re-casing and header maps -/

theorem lowerByte_case_step (up : Bool) (c : Nat) :
    lowerByte (if up then upperByte c else lowerByte c) = lowerByte c := by
  unfold lowerByte upperByte
  split_ifs <;> omega

theorem upperByte_congr (c1 c2 : Nat) (h : lowerByte c1 = lowerByte c2) :
    upperByte c1 = upperByte c2 := by
  unfold lowerByte at h
  unfold upperByte
  split_ifs at h ⊢ <;> omega

theorem strToLower_recase (up : Bool) (s : GoStr) :
    strToLower (recase up s) = strToLower s := by
  induction s generalizing up with
  | nil => rfl
  | cons c cs ih =>
    simp only [recase, strToLower, List.map_cons, List.cons.injEq]
    exact ⟨lowerByte_case_step up c, by simpa [strToLower] using ih _⟩

theorem strToLower_canonicalMIME (s : GoStr) :
    strToLower (canonicalMIME s) = strToLower s := by
  unfold canonicalMIME
  split
  · exact strToLower_recase true s
  · rfl

theorem recase_congr (up : Bool) (s1 s2 : GoStr) (h : strToLower s1 = strToLower s2) :
    recase up s1 = recase up s2 := by
  induction s1 generalizing up s2 with
  | nil =>
    cases s2 with
    | nil => rfl
    | cons b t2 => simp [strToLower] at h
  | cons a t1 ih =>
    cases s2 with
    | nil => simp [strToLower] at h
    | cons b t2 =>
      simp only [strToLower, List.map_cons, List.cons.injEq] at h
      have hc : (if up then upperByte a else lowerByte a) = (if up then upperByte b else lowerByte b) := by
        cases up
        · simpa using h.1
        · simpa using upperByte_congr a b h.1
      simp only [recase, hc, List.cons.injEq, true_and]
      exact ih _ _ h.2

theorem canonicalMIME_congr (s1 s2 : GoStr) (h1 : s1.all validTokenByte)
    (h2 : s2.all validTokenByte) (h : strToLower s1 = strToLower s2) :
    canonicalMIME s1 = canonicalMIME s2 := by
  unfold canonicalMIME
  rw [if_pos h1, if_pos h2]
  exact recase_congr true s1 s2 h

theorem headerLookup_addRaw_self (h : Headers) (k v : GoStr) :
    headerLookup (headerAddRaw h k v) k = some ((headerLookup h k).getD [] ++ [v]) := by
  induction h with
  | nil => simp [headerAddRaw, headerLookup]
  | cons e es ih =>
    by_cases hek : e.1 = k
    · simp [headerAddRaw, headerLookup, hek]
    · simp [headerAddRaw, headerLookup, hek, ih]

theorem headerLookup_addRaw_other (h : Headers) (k v k' : GoStr) (hne : k' ≠ k) :
    headerLookup (headerAddRaw h k v) k' = headerLookup h k' := by
  have hke : ¬ k = k' := fun h => hne h.symm
  induction h with
  | nil => simp [headerAddRaw, headerLookup, hke]
  | cons e es ih =>
    by_cases hek : e.1 = k
    · simp [headerAddRaw, headerLookup, hek, hke]
    · simp [headerAddRaw, headerLookup, hek, ih]

theorem headerLookup_filter (h : Headers) (p : GoStr × List GoStr → Bool) (k : GoStr)
    (hall : ∀ e ∈ h, e.1 = k → p e = true) :
    headerLookup (h.filter p) k = headerLookup h k := by
  induction h with
  | nil => rfl
  | cons e es ih =>
    by_cases hek : e.1 = k
    · rw [List.filter_cons_of_pos (hall e (List.mem_cons_self e es) hek)]
      simp [headerLookup, hek]
    · have ihe := ih (fun x hx => hall x (List.mem_cons_of_mem e hx))
      cases hp : p e with
      | true => rw [List.filter_cons_of_pos hp]; simp [headerLookup, hek, ihe]
      | false => rw [List.filter_cons_of_neg (by simp [hp])]; simp [headerLookup, hek, ihe]

theorem amzKey_canonicalMIME (k : GoStr) : amzKey (canonicalMIME k) = amzKey k := by
  unfold amzKey
  rw [strToLower_canonicalMIME]

theorem headerGet_amzEntries (h : Headers) (k : GoStr) (hk : amzKey k = true) :
    headerGet (amzEntries h) k = headerGet h k := by
  unfold headerGet amzEntries
  rw [headerLookup_filter h _ (canonicalMIME k)
    (fun e _ he => by rw [he, amzKey_canonicalMIME]; exact hk)]

theorem mem_insertStr (x s : GoStr) (l : List GoStr) :
    x ∈ insertStr s l ↔ x = s ∨ x ∈ l := by
  induction l with
  | nil => simp [insertStr]
  | cons t ts ih =>
    unfold insertStr
    split
    · rw [List.mem_cons, ih, List.mem_cons]
      tauto
    · rw [List.mem_cons]

theorem mem_sortStrs (x : GoStr) (l : List GoStr) : x ∈ sortStrs l ↔ x ∈ l := by
  induction l with
  | nil => simp [sortStrs]
  | cons t ts ih =>
    simp only [sortStrs, List.foldr_cons] at *
    rw [mem_insertStr, ih]
    simp

theorem canonicalizedAmzHeaders_eq_amzEntries (h : Headers) :
    canonicalizedAmzHeaders h = canonicalizedAmzHeaders (amzEntries h) := by
  unfold canonicalizedAmzHeaders
  have hkeys : ((amzEntries h).map Prod.fst).filter amzKey = (h.map Prod.fst).filter amzKey := by
    unfold amzEntries
    induction h with
    | nil => rfl
    | cons e es ih =>
      cases hp : amzKey e.1 with
      | true => simp [List.filter_cons, List.map_cons, hp, ih]
      | false => simp [List.filter_cons, List.map_cons, hp, ih]
  rw [hkeys]
  refine congrArg List.flatten (List.map_congr_left ?_)
  intro k hk
  rw [mem_sortStrs] at hk
  have hamz : amzKey k = true := List.of_mem_filter hk
  rw [headerGet_amzEntries h k hamz]

/-! ## Lemmas about the signer -/

theorem canonicalizedResource_eq (b : Bucket) (u : GoUrl) :
    canonicalizedResource b u = gs "/" ++ b.name ++ (if u.path = [] then gs "/" else u.path) := by
  unfold canonicalizedResource requestURI
  simp [List.append_assoc]

theorem authDateStep_fields (now : GoStr) (r : GoReq) :
    (authDateStep now r).method = r.method ∧ (authDateStep now r).url = r.url
    ∧ (authDateStep now r).body = r.body := by
  unfold authDateStep
  split <;> exact ⟨rfl, rfl, rfl⟩

theorem authDateStep_header (now : GoStr) (r : GoReq) :
    (authDateStep now r).header =
      if headerGet r.header (gs "Date") = [] then headerAddRaw r.header (gs "Date") now
      else r.header := by
  unfold authDateStep
  split
  · show headerAdd r.header (gs "Date") now = headerAddRaw r.header (gs "Date") now
    unfold headerAdd
    rw [(by decide : canonicalMIME (gs "Date") = gs "Date")]
  · rfl

theorem authRequest_header (now : GoStr) (b : Bucket) (r : GoReq) :
    (authRequest now b r).header =
      headerAddRaw
        (headerAddRaw (authDateStep now r).header (gs "Host") (gs "http://" ++ b.name ++ b.base))
        (gs "Authorization")
        (gs "AWS " ++ b.key ++ gs ":" ++ signatureOf b (authDateStep now r)) := by
  simp only [authRequest, headerAdd]
  rw [(by decide : canonicalMIME (gs "Host") = gs "Host"),
      (by decide : canonicalMIME (gs "Authorization") = gs "Authorization")]

theorem authRequest_fields (now : GoStr) (b : Bucket) (r : GoReq) :
    (authRequest now b r).method = r.method ∧ (authRequest now b r).url = r.url
    ∧ (authRequest now b r).body = r.body := by
  simp only [authRequest, headerAdd]
  exact authDateStep_fields now r

/-! ## Claims about the signer -/

/-- Claim C3: the canonicalized resource is `/` + bucket name + the request
path with the query stripped; the string to sign is exactly method, newline,
empty content-MD5 line, Content-Type value, newline, Date value, newline,
the vendor-header block, then the resource; the query string never reaches
the string to sign; and the vendor block is the empty string when no
vendor header exists. -/
theorem stringToSign_structure (b : Bucket) (r : GoReq) (hpath : r.url.path ≠ []) :
    canonicalizedResource b r.url = gs "/" ++ b.name ++ r.url.path
    ∧ stringToSign b r
        = r.method ++ gs "\n" ++ gs "\n"
          ++ headerGet r.header (gs "Content-Type") ++ gs "\n"
          ++ headerGet r.header (gs "Date") ++ gs "\n"
          ++ canonicalizedAmzHeaders r.header
          ++ (gs "/" ++ b.name ++ r.url.path)
    ∧ (∀ q, stringToSign b { r with url := { r.url with rawQuery := q } } = stringToSign b r)
    ∧ ((r.header.map Prod.fst).filter amzKey = [] → canonicalizedAmzHeaders r.header = []) := by
  have hres : canonicalizedResource b r.url = gs "/" ++ b.name ++ r.url.path := by
    rw [canonicalizedResource_eq, if_neg hpath]
  refine ⟨hres, ?_, ?_, ?_⟩
  · unfold stringToSign
    rw [hres, (by decide : gs "\n\n" = gs "\n" ++ gs "\n")]
    simp [List.append_assoc]
  · intro q
    unfold stringToSign
    rw [canonicalizedResource_eq, canonicalizedResource_eq]
  · intro hempty
    simp only [canonicalizedAmzHeaders]
    rw [hempty]
    rfl

/-- Witness for C3 at a concrete request. -/
theorem stringToSign_structure_witness :
    canonicalizedResource bkt reqWithDate.url = gs "/" ++ bkt.name ++ reqWithDate.url.path :=
  (stringToSign_structure bkt reqWithDate (by decide)).1

/-- Claim C8: signing leaves method, URL and body alone; headers other than
`Date`, `Host` and `Authorization` are untouched; an existing `Date` header
is kept, a missing one is set to the clock value; and exactly a `Host`
value and an `Authorization` value of shape `AWS keyId:base64(hmac-sha1)`
are appended. -/
theorem authRequest_frame (now : GoStr) (b : Bucket) (r : GoReq) :
    (authRequest now b r).method = r.method
    ∧ (authRequest now b r).url = r.url
    ∧ (authRequest now b r).body = r.body
    ∧ (∀ k, canonicalMIME k ≠ gs "Date" → canonicalMIME k ≠ gs "Host" →
        canonicalMIME k ≠ gs "Authorization" →
        headerLookup (authRequest now b r).header (canonicalMIME k)
          = headerLookup r.header (canonicalMIME k))
    ∧ (headerGet r.header (gs "Date") ≠ [] →
        headerLookup (authRequest now b r).header (gs "Date")
          = headerLookup r.header (gs "Date"))
    ∧ (headerGet r.header (gs "Date") = [] →
        headerValuesOf (authRequest now b r).header (gs "Date")
          = headerValuesOf r.header (gs "Date") ++ [now])
    ∧ headerValuesOf (authRequest now b r).header (gs "Host")
        = headerValuesOf r.header (gs "Host") ++ [gs "http://" ++ b.name ++ b.base]
    ∧ headerValuesOf (authRequest now b r).header (gs "Authorization")
        = headerValuesOf r.header (gs "Authorization")
          ++ [gs "AWS " ++ b.key ++ gs ":"
              ++ base64Std (hmacSha1 b.secret (stringToSign b (authDateStep now r)))] := by
  refine ⟨(authRequest_fields now b r).1, (authRequest_fields now b r).2.1,
    (authRequest_fields now b r).2.2, ?_, ?_, ?_, ?_, ?_⟩
  · intro k h1 h2 h3
    rw [authRequest_header,
        headerLookup_addRaw_other _ _ _ _ h3, headerLookup_addRaw_other _ _ _ _ h2,
        authDateStep_header]
    split
    · rw [headerLookup_addRaw_other _ _ _ _ h1]
    · rfl
  · intro hdate
    rw [authRequest_header,
        headerLookup_addRaw_other _ _ _ _ (by decide), headerLookup_addRaw_other _ _ _ _ (by decide),
        authDateStep_header, if_neg hdate]
  · intro hdate
    unfold headerValuesOf
    rw [(by decide : canonicalMIME (gs "Date") = gs "Date"), authRequest_header,
        headerLookup_addRaw_other _ _ _ _ (by decide), headerLookup_addRaw_other _ _ _ _ (by decide),
        authDateStep_header, if_pos hdate, headerLookup_addRaw_self]
    rfl
  · unfold headerValuesOf
    rw [(by decide : canonicalMIME (gs "Host") = gs "Host"), authRequest_header,
        headerLookup_addRaw_other _ _ _ _ (by decide), headerLookup_addRaw_self,
        authDateStep_header]
    split
    · rw [headerLookup_addRaw_other _ _ _ _ (by decide)]
      rfl
    · rfl
  · unfold headerValuesOf
    rw [(by decide : canonicalMIME (gs "Authorization") = gs "Authorization"), authRequest_header,
        headerLookup_addRaw_self, headerLookup_addRaw_other _ _ _ _ (by decide),
        authDateStep_header]
    unfold signatureOf
    split
    · rw [headerLookup_addRaw_other _ _ _ _ (by decide)]
      rfl
    · rfl

/-- Witness for C8: with a `Date` already present it is left unchanged. -/
theorem authRequest_frame_witness :
    headerLookup (authRequest (gs "now") bkt reqWithDate).header (gs "Date")
      = headerLookup reqWithDate.header (gs "Date") :=
  (authRequest_frame (gs "now") bkt reqWithDate).2.2.2.2.1 (by decide)

theorem authRequest_auth_last (now : GoStr) (b : Bucket) (r : GoReq) :
    (headerValuesOf (authRequest now b r).header (gs "Authorization")).getLast?
      = some (gs "AWS " ++ b.key ++ gs ":" ++ signatureOf b (authDateStep now r)) := by
  unfold headerValuesOf
  rw [(by decide : canonicalMIME (gs "Authorization") = gs "Authorization"), authRequest_header,
      headerLookup_addRaw_self]
  simp

/-- Claim C4: signing is a pure function of method, Content-Type value,
Date value (when present), the vendor-header entries, the path, and the
bucket's credentials: two signing runs agreeing on those — whatever the
clock reads, the query string, or the other headers — produce an identical
`Authorization` value. -/
theorem authRequest_deterministic (b : Bucket) (now1 now2 : GoStr) (r1 r2 : GoReq)
    (hm : r1.method = r2.method)
    (hct : headerGet r1.header (gs "Content-Type") = headerGet r2.header (gs "Content-Type"))
    (hdate : headerGet r1.header (gs "Date") = headerGet r2.header (gs "Date"))
    (hdate1 : headerGet r1.header (gs "Date") ≠ [])
    (hamz : amzEntries r1.header = amzEntries r2.header)
    (hpath : r1.url.path = r2.url.path) :
    (headerValuesOf (authRequest now1 b r1).header (gs "Authorization")).getLast?
      = (headerValuesOf (authRequest now2 b r2).header (gs "Authorization")).getLast? := by
  rw [authRequest_auth_last, authRequest_auth_last]
  have hd2 : headerGet r2.header (gs "Date") ≠ [] := by rw [← hdate]; exact hdate1
  unfold authDateStep
  rw [if_neg hdate1, if_neg hd2]
  have hsts : stringToSign b r1 = stringToSign b r2 := by
    unfold stringToSign
    rw [hm, hct, hdate, canonicalizedAmzHeaders_eq_amzEntries r1.header, hamz,
        ← canonicalizedAmzHeaders_eq_amzEntries, canonicalizedResource_eq,
        canonicalizedResource_eq, hpath]
  unfold signatureOf
  rw [hsts]

/-- Witness for C4: two requests differing in clock value, query string and
a non-vendor header still get the same `Authorization` value. -/
theorem authRequest_deterministic_witness :
    (headerValuesOf (authRequest (gs "now1") bkt reqWithDate).header (gs "Authorization")).getLast?
      = (headerValuesOf (authRequest (gs "now2") bkt reqWithDate2).header (gs "Authorization")).getLast? :=
  authRequest_deterministic bkt (gs "now1") (gs "now2") reqWithDate reqWithDate2
    (by decide) (by decide) (by decide) (by decide) (by decide) (by decide)

theorem buildHeaders_congr_aux :
    ∀ (ps1 ps2 : List (GoStr × GoStr)),
      List.Forall₂ (fun a b => strToLower a.1 = strToLower b.1
        ∧ a.1.all validTokenByte ∧ b.1.all validTokenByte ∧ a.2 = b.2) ps1 ps2 →
      ∀ acc : Headers,
        ps1.foldl (fun h e => headerAdd h e.1 e.2) acc
          = ps2.foldl (fun h e => headerAdd h e.1 e.2) acc := by
  intro ps1 ps2 h
  induction h with
  | nil => intro acc; rfl
  | @cons a b l1 l2 hab htail ih =>
    intro acc
    simp only [List.foldl_cons]
    have hstep : headerAdd acc a.1 a.2 = headerAdd acc b.1 b.2 := by
      unfold headerAdd
      rw [canonicalMIME_congr _ _ hab.2.1 hab.2.2.1 hab.1, hab.2.2.2]
    rw [hstep]
    exact ih _

/-- Claim C1 corrected: the block collects exactly the stored names whose
lower-cased form starts with `x-amz-` (headers outside that set never change
the block), sorts them by the stored name, and emits
`lowercase-name:value\n` per stored name; and header maps built through
`Header.Add` — which canonicalizes valid-token names — from name lists equal
up to letter case are identical, so they canonicalize to the identical
string and yield the identical signature.  (For raw maps holding
non-canonical keys, case-insensitivity fails: see the counterexample.) -/
theorem canonicalizedAmzHeaders_amended :
    (∀ h : Headers, canonicalizedAmzHeaders h = canonicalizedAmzHeaders (amzEntries h))
    ∧ (∀ ps1 ps2 : List (GoStr × GoStr),
        List.Forall₂ (fun a b => strToLower a.1 = strToLower b.1
          ∧ a.1.all validTokenByte ∧ b.1.all validTokenByte ∧ a.2 = b.2) ps1 ps2 →
        buildHeaders ps1 = buildHeaders ps2
        ∧ canonicalizedAmzHeaders (buildHeaders ps1)
            = canonicalizedAmzHeaders (buildHeaders ps2)) := by
  refine ⟨canonicalizedAmzHeaders_eq_amzEntries, ?_⟩
  intro ps1 ps2 h
  have hb : buildHeaders ps1 = buildHeaders ps2 := buildHeaders_congr_aux ps1 ps2 h []
  exact ⟨hb, by rw [hb]⟩

/-- Witness for the corrected C1: maps added with `X-Amz-Meta-A` and with
`x-amz-meta-a` come out identical. -/
theorem canonicalizedAmzHeaders_amended_witness :
    buildHeaders [(gs "X-Amz-Meta-A", gs "1")] = buildHeaders [(gs "x-amz-meta-a", gs "1")] :=
  (canonicalizedAmzHeaders_amended.2 [(gs "X-Amz-Meta-A", gs "1")] [(gs "x-amz-meta-a", gs "1")]
    (List.Forall₂.cons ⟨by decide, by decide, by decide, rfl⟩ List.Forall₂.nil)).1

/-- Counterexample for claim C1: two raw header maps that differ only in
the letter case of their one header name canonicalize to different strings
(`Header.Get` re-canonicalizes the name, so a non-canonical stored key's
value is not found); moreover names with equal lowercase forms are not
deduplicated (two `x-amz-a` lines), and lines are ordered by the stored
name, not ascending by the lowercase name (`x-amz-b` before `x-amz-a`). -/
theorem canonicalizedAmzHeaders_case_cex :
    canonicalizedAmzHeaders [(gs "X-Amz-Meta-A", [gs "1"])] = gs "x-amz-meta-a:1\n"
    ∧ canonicalizedAmzHeaders [(gs "x-amz-meta-a", [gs "1"])] = gs "x-amz-meta-a:\n"
    ∧ canonicalizedAmzHeaders [(gs "X-Amz-Meta-A", [gs "1"])]
        ≠ canonicalizedAmzHeaders [(gs "x-amz-meta-a", [gs "1"])]
    ∧ canonicalizedAmzHeaders [(gs "X-Amz-A", [gs "1"]), (gs "x-amz-a", [gs "2"])]
        = gs "x-amz-a:1\nx-amz-a:1\n"
    ∧ canonicalizedAmzHeaders [(gs "X-Amz-B", [gs "1"]), (gs "x-amz-a", [gs "2"])]
        = gs "x-amz-b:1\nx-amz-a:\n" := by
  refine ⟨by decide, by decide, by decide, by decide, by decide⟩

/-! ## Lemmas about metadata extraction -/

theorem headerAddRaw_notMem (h : Headers) (k v : GoStr) (hk : k ∉ h.map Prod.fst) :
    headerAddRaw h k v = h ++ [(k, [v])] := by
  induction h with
  | nil => rfl
  | cons e es ih =>
    simp only [List.map_cons, List.mem_cons] at hk
    push_neg at hk
    simp [headerAddRaw, Ne.symm hk.1, ih hk.2]

theorem metaInsert_notMem (data : List (GoStr × GoStr)) (k v : GoStr)
    (hk : k ∉ data.map Prod.fst) :
    metaInsert data k v = data ++ [(k, v)] := by
  induction data with
  | nil => rfl
  | cons e es ih =>
    simp only [List.map_cons, List.mem_cons] at hk
    push_neg at hk
    simp [metaInsert, Ne.symm hk.1, ih hk.2]

theorem metaInsert_keys (data : List (GoStr × GoStr)) (k v x : GoStr)
    (hx : x ∈ (metaInsert data k v).map Prod.fst) : x = k ∨ x ∈ data.map Prod.fst := by
  induction data with
  | nil => simpa [metaInsert] using hx
  | cons e es ih =>
    by_cases hek : e.1 = k
    · simp only [metaInsert, if_pos hek, List.map_cons, List.mem_cons] at hx ⊢
      tauto
    · simp only [metaInsert, if_neg hek, List.map_cons, List.mem_cons] at hx ⊢
      rcases hx with hx | hx
      · tauto
      · rcases ih hx with h | h <;> tauto

theorem append_ne_of_head (a : Nat) (p q t : GoStr) (hp : p.head? = some a)
    (hq : q.head? ≠ some a) : p ++ t ≠ q := by
  intro h
  apply hq
  rw [← h]
  cases p with
  | nil => simp at hp
  | cons x xs => simpa using hp

theorem upperByte_idem (c : Nat) : upperByte (upperByte c) = upperByte c := by
  unfold upperByte
  split_ifs <;> omega

theorem lowerByte_idem (c : Nat) : lowerByte (lowerByte c) = lowerByte c := by
  unfold lowerByte
  split_ifs <;> omega

theorem strToLower_idem (s : GoStr) : strToLower (strToLower s) = strToLower s := by
  unfold strToLower
  rw [List.map_map]
  exact List.map_congr_left (fun c _ => lowerByte_idem c)

theorem validTokenByte_case (up : Bool) (c : Nat) :
    validTokenByte (if up then upperByte c else lowerByte c) = validTokenByte c := by
  unfold validTokenByte upperByte lowerByte
  split_ifs <;> (apply decide_eq_decide.mpr; omega)

theorem recase_all_valid (up : Bool) (s : GoStr) :
    (recase up s).all validTokenByte = s.all validTokenByte := by
  induction s generalizing up with
  | nil => rfl
  | cons c cs ih =>
    simp only [recase, List.all_cons, validTokenByte_case, ih]

theorem recase_idem (up : Bool) (s : GoStr) : recase up (recase up s) = recase up s := by
  induction s generalizing up with
  | nil => rfl
  | cons c cs ih =>
    simp only [recase]
    have hc : (if up then upperByte (if up then upperByte c else lowerByte c)
        else lowerByte (if up then upperByte c else lowerByte c))
        = (if up then upperByte c else lowerByte c) := by
      cases up
      · simpa using lowerByte_idem c
      · simpa using upperByte_idem c
    rw [hc]
    exact congrArg _ (ih _)

theorem canonicalMIME_idem (s : GoStr) : canonicalMIME (canonicalMIME s) = canonicalMIME s := by
  by_cases hv : s.all validTokenByte = true
  · have h1 : canonicalMIME s = recase true s := by rw [canonicalMIME, if_pos hv]
    rw [h1, canonicalMIME, if_pos (by rw [recase_all_valid]; exact hv), recase_idem]
  · have h1 : canonicalMIME s = s := by rw [canonicalMIME, if_neg hv]
    rw [h1, h1]

theorem strToLower_metaHdrKey (k : GoStr) :
    strToLower (metaHdrKey k) = gs "x-amz-meta-" ++ strToLower k := by
  unfold metaHdrKey
  rw [strToLower_canonicalMIME]
  unfold strToLower
  rw [List.map_append, show (gs "x-amz-meta-").map lowerByte = gs "x-amz-meta-" from by decide]

theorem metaHdrKey_ne_ct (k : GoStr) : metaHdrKey k ≠ gs "Content-Type" := by
  intro h
  have h2 := congrArg strToLower h
  rw [strToLower_metaHdrKey k,
      show strToLower (gs "Content-Type") = gs "content-type" from by decide] at h2
  exact append_ne_of_head 120 (gs "x-amz-meta-") (gs "content-type") (strToLower k)
    (by decide) (by decide) h2

theorem metaHdrKey_inj (a b : GoStr) (h : strToLower a ≠ strToLower b) :
    metaHdrKey a ≠ metaHdrKey b := by
  intro hk
  apply h
  have h2 := congrArg strToLower hk
  rw [strToLower_metaHdrKey, strToLower_metaHdrKey] at h2
  exact List.append_cancel_left h2

theorem foldAdd_fresh :
    ∀ (entries : List (GoStr × GoStr)) (acc : Headers),
      (∀ e ∈ entries, metaHdrKey e.1 ∉ acc.map Prod.fst) →
      entries.Pairwise (fun a b => metaHdrKey a.1 ≠ metaHdrKey b.1) →
      entries.foldl (fun h e => headerAdd h (gs "x-amz-meta-" ++ e.1) e.2) acc
        = acc ++ metaHdrEntries entries := by
  intro entries
  induction entries with
  | nil => intro acc _ _; simp [metaHdrEntries]
  | cons a t ih =>
    intro acc hfresh hpw
    rw [List.pairwise_cons] at hpw
    simp only [List.foldl_cons]
    have hstep : headerAdd acc (gs "x-amz-meta-" ++ a.1) a.2
        = acc ++ [(metaHdrKey a.1, [a.2])] :=
      headerAddRaw_notMem acc (metaHdrKey a.1) a.2 (hfresh a (List.mem_cons_self a t))
    rw [hstep, ih (acc ++ [(metaHdrKey a.1, [a.2])])
      (fun e he => by
        simp only [List.map_append, List.map_cons, List.map_nil, List.mem_append,
          List.mem_cons, List.not_mem_nil, or_false]
        push_neg
        exact ⟨hfresh e (List.mem_cons_of_mem a he), (hpw.1 e he).symm⟩)
      hpw.2]
    simp [metaHdrEntries]

theorem putMetaHeaders_eq (entries : List (GoStr × GoStr))
    (hpw : entries.Pairwise (fun a b => metaHdrKey a.1 ≠ metaHdrKey b.1)) :
    putMetaHeaders entries
      = (gs "Content-Type", [gs "text/plain"]) :: metaHdrEntries entries := by
  unfold putMetaHeaders
  rw [show headerAdd [] (gs "Content-Type") (gs "text/plain")
      = [(gs "Content-Type", [gs "text/plain"])] from by decide]
  rw [foldAdd_fresh entries [(gs "Content-Type", [gs "text/plain"])]
    (fun e _ => by simpa using metaHdrKey_ne_ct e.1) hpw]
  rfl

theorem metaHdrEntries_lookup :
    ∀ (entries : List (GoStr × GoStr)),
      entries.Pairwise (fun a b => metaHdrKey a.1 ≠ metaHdrKey b.1) →
      ∀ e ∈ entries, headerLookup (metaHdrEntries entries) (metaHdrKey e.1) = some [e.2] := by
  intro entries
  induction entries with
  | nil => intro _ e he; cases he
  | cons a t ih =>
    intro hpw e he
    rw [List.pairwise_cons] at hpw
    rcases List.mem_cons.mp he with rfl | het
    · simp [metaHdrEntries, headerLookup]
    · have hne : metaHdrKey a.1 ≠ metaHdrKey e.1 := hpw.1 e het
      simp only [metaHdrEntries, List.map_cons, headerLookup, if_neg hne]
      exact ih hpw.2 e het

theorem headerGet_putMeta (entries : List (GoStr × GoStr))
    (hpw : entries.Pairwise (fun a b => metaHdrKey a.1 ≠ metaHdrKey b.1))
    (e : GoStr × GoStr) (he : e ∈ entries) :
    headerGet (putMetaHeaders entries) (metaHdrKey e.1) = e.2 := by
  unfold headerGet
  rw [show canonicalMIME (metaHdrKey e.1) = metaHdrKey e.1 from canonicalMIME_idem _,
      putMetaHeaders_eq entries hpw]
  simp only [headerLookup, if_neg (Ne.symm (metaHdrKey_ne_ct e.1))]
  rw [metaHdrEntries_lookup entries hpw e he]

theorem isPrefixOf_append_self (p t : GoStr) : p.isPrefixOf (p ++ t) = true := by
  induction p with
  | nil => simp [List.isPrefixOf]
  | cons a as ih => simp [List.isPrefixOf, ih]

theorem extractStep_meta (H : Headers) (data : List (GoStr × GoStr)) (e : GoStr × GoStr) :
    extractStep H data (metaHdrKey e.1, [e.2])
      = metaInsert data (strToLower e.1) (headerGet H (metaHdrKey e.1)) := by
  unfold extractStep
  rw [strToLower_metaHdrKey]
  rw [if_pos (isPrefixOf_append_self (gs "x-amz-meta-") (strToLower e.1))]
  unfold dropPre
  rw [if_pos (isPrefixOf_append_self (gs "x-amz-meta-") (strToLower e.1)), List.drop_left]

theorem extract_fold_meta (H : Headers) :
    ∀ (sub : List (GoStr × GoStr)) (acc : List (GoStr × GoStr)),
      (∀ e ∈ sub, headerGet H (metaHdrKey e.1) = e.2) →
      (∀ e ∈ sub, strToLower e.1 ∉ acc.map Prod.fst) →
      sub.Pairwise (fun a b => strToLower a.1 ≠ strToLower b.1) →
      (metaHdrEntries sub).foldl (extractStep H) acc
        = acc ++ sub.map (fun e => (strToLower e.1, e.2)) := by
  intro sub
  induction sub with
  | nil => intro acc _ _ _; simp [metaHdrEntries]
  | cons a t ih =>
    intro acc hget hfresh hpw
    rw [List.pairwise_cons] at hpw
    have hrec := ih (acc ++ [(strToLower a.1, a.2)])
      (fun e he => hget e (List.mem_cons_of_mem a he))
      (fun e he => by
        simp only [List.map_append, List.map_cons, List.map_nil, List.mem_append,
          List.mem_cons, List.not_mem_nil, or_false]
        push_neg
        exact ⟨hfresh e (List.mem_cons_of_mem a he), (hpw.1 e he).symm⟩)
      hpw.2
    rw [show metaHdrEntries (a :: t) = (metaHdrKey a.1, [a.2]) :: metaHdrEntries t from rfl,
        List.foldl_cons, extractStep_meta, hget a (List.mem_cons_self a t),
        metaInsert_notMem acc (strToLower a.1) a.2 (hfresh a (List.mem_cons_self a t)),
        hrec]
    simp

theorem extract_putMeta (entries : List (GoStr × GoStr))
    (hdist : entries.Pairwise (fun a b => strToLower a.1 ≠ strToLower b.1)) :
    extractMetaDataFrom (putMetaHeaders entries)
      = entries.map (fun e => (strToLower e.1, e.2)) := by
  have hpw : entries.Pairwise (fun a b => metaHdrKey a.1 ≠ metaHdrKey b.1) :=
    hdist.imp (fun h => metaHdrKey_inj _ _ h)
  have hget : ∀ e ∈ entries, headerGet (putMetaHeaders entries) (metaHdrKey e.1) = e.2 :=
    fun e he => headerGet_putMeta entries hpw e he
  have hget2 : ∀ e ∈ entries,
      headerGet ((gs "Content-Type", [gs "text/plain"]) :: metaHdrEntries entries)
        (metaHdrKey e.1) = e.2 := by
    rw [← putMetaHeaders_eq entries hpw]
    exact hget
  unfold extractMetaDataFrom
  rw [putMetaHeaders_eq entries hpw, List.foldl_cons,
      show extractStep ((gs "Content-Type", [gs "text/plain"]) :: metaHdrEntries entries) []
          (gs "Content-Type", [gs "text/plain"]) = [] from by
        simp only [extractStep]
        rw [if_neg (by decide)],
      extract_fold_meta _ entries [] hget2 (by simp) hdist]
  rfl

theorem map_lower_eq_self (l : List (GoStr × GoStr)) :
    l.map (fun e => (strToLower e.1, e.2)) = l ↔ ∀ e ∈ l, strToLower e.1 = e.1 := by
  induction l with
  | nil => simp
  | cons a t ih =>
    rw [List.map_cons, List.forall_mem_cons, ← ih]
    constructor
    · intro h
      rw [List.cons.injEq] at h
      exact ⟨congrArg Prod.fst h.1, h.2⟩
    · intro h
      rw [List.cons.injEq]
      exact ⟨by rw [h.1], h.2⟩

theorem strToLower_extract_key (p x : GoStr) :
    strToLower (dropPre p (strToLower x)) = dropPre p (strToLower x) := by
  unfold dropPre
  split
  · calc strToLower ((strToLower x).drop p.length)
        = (strToLower (strToLower x)).drop p.length := List.map_drop lowerByte _ _
      _ = (strToLower x).drop p.length := by rw [strToLower_idem]
  · exact strToLower_idem x

theorem extract_keys_lower (h : Headers) :
    ∀ k ∈ (extractMetaDataFrom h).map Prod.fst, strToLower k = k := by
  suffices hgen : ∀ (sub : Headers) (acc : List (GoStr × GoStr)),
      (∀ k ∈ acc.map Prod.fst, strToLower k = k) →
      ∀ k ∈ (sub.foldl (extractStep h) acc).map Prod.fst, strToLower k = k by
    exact hgen h [] (by simp)
  intro sub
  induction sub with
  | nil => intro acc hacc; exact hacc
  | cons e es ih =>
    intro acc hacc
    rw [List.foldl_cons]
    apply ih
    intro k hk
    simp only [extractStep] at hk
    by_cases hc : ((gs "x-amz-meta-").isPrefixOf (strToLower e.1)) = true
    · rw [if_pos hc] at hk
      rcases metaInsert_keys _ _ _ _ hk with rfl | hk2
      · exact strToLower_extract_key _ _
      · exact hacc k hk2
    · rw [if_neg hc] at hk
      exact hacc k hk

/-- Claim C9: for metadata whose keys are pairwise distinct under
lower-casing, extracting from the headers the PUT operation builds yields
exactly the map `lowercase(key) ↦ value`; the result equals the original
map precisely when every key is already lower-case; and every map
`extractMetaDataFrom` ever returns has only lower-case keys. -/
theorem extractMetaDataFrom_roundtrip :
    (∀ entries : List (GoStr × GoStr),
      entries.Pairwise (fun a b => strToLower a.1 ≠ strToLower b.1) →
      extractMetaDataFrom (putMetaHeaders entries)
          = entries.map (fun e => (strToLower e.1, e.2))
        ∧ (extractMetaDataFrom (putMetaHeaders entries) = entries
            ↔ ∀ e ∈ entries, strToLower e.1 = e.1))
    ∧ (∀ (h : Headers) (k : GoStr), k ∈ (extractMetaDataFrom h).map Prod.fst →
        strToLower k = k) := by
  refine ⟨?_, fun h k hk => extract_keys_lower h k hk⟩
  intro entries hdist
  have h1 := extract_putMeta entries hdist
  exact ⟨h1, by rw [h1]; exact map_lower_eq_self entries⟩

/-- Witness for C9: the metadata entry `Owner ↦ alice` round-trips to
`owner ↦ alice`. -/
theorem extractMetaDataFrom_roundtrip_witness :
    extractMetaDataFrom (putMetaHeaders [(gs "Owner", gs "alice")])
      = [(gs "owner", gs "alice")] := by
  rw [(extractMetaDataFrom_roundtrip.1 [(gs "Owner", gs "alice")] (by simp)).1]
  decide
